import Mathlib

/-!
Shallow embedding of the laitos supervisor (`launcher/supervisor.go`).

Go strings are modelled as Lean `String`; Go slices as Lean `List`.
`strings.HasPrefix` is modelled through the character list of a string,
and `strings.Contains(s, "=")` through a single-character containment
check, which agrees with it for one-character needles.
-/

namespace Laitos

/-- Model of Go `strings.HasPrefix str pre`. -/
def hasPrefixGo (s pre : String) : Bool :=
  pre.data.isPrefixOf s.data

/-- Model of Go `strings.Contains str c` for a single-character needle. -/
def containsCharGo (s : String) (c : Char) : Bool :=
  s.data.contains c

/-- `ConfigFlagName` from supervisor.go. -/
def ConfigFlagName : String := "config"

/-- `SupervisorFlagName` from supervisor.go. -/
def SupervisorFlagName : String := "supervisor"

/-- `DaemonsFlagName` from supervisor.go. -/
def DaemonsFlagName : String := "daemons"

def DNSDName : String := "dnsd"
def HTTPDName : String := "httpd"
def InsecureHTTPDName : String := "insecurehttpd"
def MaintenanceName : String := "maintenance"
def PlainSocketName : String := "plainsocket"
def SerialPortDaemonName : String := "serialport"
def SimpleIPSvcName : String := "simpleipsvcd"
def SMTPDName : String := "smtpd"
def SNMPDName : String := "snmpd"
def SOCKDName : String := "sockd"
def TelegramName : String := "telegram"
def AutoUnlockName : String := "autounlock"
def PhoneHomeName : String := "phonehome"

/-- `FailureThresholdSec` from supervisor.go (20 minutes, in seconds). -/
def FailureThresholdSec : Int := 20 * 60

/-- `StartAttemptIntervalSec` from supervisor.go. -/
def StartAttemptIntervalSec : Nat := 10

/-- `ShedOrder` from supervisor.go: daemons to be taken offline one after
another in case of rapid and repeated program crash. -/
def ShedOrder : List String :=
  [MaintenanceName,
   SerialPortDaemonName, SimpleIPSvcName,
   SNMPDName, DNSDName,
   SOCKDName, SMTPDName, HTTPDName,
   InsecureHTTPDName, PlainSocketName, TelegramName, PhoneHomeName]

/-- Loop body of Go `RemoveFromFlags`, carrying the two mutable booleans
`connectNext` and `deleted` of the original scan. -/
def removeFromFlagsLoop (condition : String → Bool) :
    List String → Bool → Bool → List String
  | [], _, _ => []
  | str :: rest, connectNext, deleted =>
    if hasPrefixGo str "-" then
      if condition str then
        removeFromFlagsLoop condition rest (!containsCharGo str '=') true
      else
        str :: removeFromFlagsLoop condition rest true false
    else if (!deleted && connectNext) || (deleted && !connectNext) then
      str :: removeFromFlagsLoop condition rest connectNext deleted
    else
      removeFromFlagsLoop condition rest connectNext deleted

/-- `RemoveFromFlags` from supervisor.go: removes a CLI flag from the input
flags based on a condition function (true to remove), together with the
following value token when the flag was given in separated form. -/
def RemoveFromFlags (condition : String → Bool) (flags : List String) : List String :=
  removeFromFlagsLoop condition flags false false

/-- Model of Go `copy(dst, src)` on slices: the first
`min (length dst) (length src)` elements of `dst` are overwritten by the
corresponding elements of `src`; the rest of `dst` is unchanged. -/
def goCopy {α : Type} (dst src : List α) : List α :=
  src.take (min dst.length src.length) ++ dst.drop (min dst.length src.length)

/-- The `Supervisor` struct from supervisor.go. The mail client collaborator
is represented by its `IsConfigured` answer; the log writers carry no
observable state for the properties below and are omitted. -/
structure Supervisor where
  CLIFlags : List String
  NotificationRecipients : List String
  MailClientConfigured : Bool
  DaemonNames : List String
  shedSequence : List (List String)

/-- The daemon-shedding-sequence construction loop inside
`Supervisor.initialise` of supervisor.go, parameterised by the priority
order iterated over (`ShedOrder` in the source) and the remaining daemons. -/
def buildShedSequence : List String → List String → List (List String)
  | [], _ => []
  | toShed :: rest, remaining =>
    if remaining.length == 1 then []
    else
      if remaining.any (fun daemon => daemon == toShed) then
        (remaining.filter (fun daemon => !(daemon == toShed))) ::
          buildShedSequence rest (remaining.filter (fun daemon => !(daemon == toShed)))
      else
        buildShedSequence rest remaining

/-- `Supervisor.initialise` from supervisor.go, restricted to its observable
state changes: daemon-name flags are stripped from the CLI flags, and the
shed sequence is computed from `ShedOrder` and the configured daemons. -/
def Supervisor.initialise (sup : Supervisor) : Supervisor :=
  ⟨RemoveFromFlags (fun s => hasPrefixGo s ("-" ++ DaemonsFlagName)) sup.CLIFlags,
   sup.NotificationRecipients,
   sup.MailClientConfigured,
   sup.DaemonNames,
   buildShedSequence ShedOrder sup.DaemonNames⟩

/-- `Supervisor.GetLaunchParameters` from supervisor.go. The Go code indexes
`shedSequence[nthAttempt-2]`, which panics when out of range; the model
returns `none` exactly there. The restore step for late attempts is Go
`copy` into the (possibly shorter) filtered flag slice, modelled by
`goCopy`. -/
def Supervisor.GetLaunchParameters (sup : Supervisor) (nthAttempt : Int) :
    Option (List String × List String) :=
  let cliFlags1 :=
    if 0 ≤ nthAttempt then
      RemoveFromFlags (fun f => hasPrefixGo f ("-" ++ SupervisorFlagName)) sup.CLIFlags
    else sup.CLIFlags
  let addFlags : List String :=
    if 0 ≤ nthAttempt then ["-" ++ SupervisorFlagName ++ "=false"] else []
  let cliFlags2 :=
    if 1 ≤ nthAttempt then
      RemoveFromFlags (fun f => !hasPrefixGo f ("-" ++ ConfigFlagName)) cliFlags1
    else cliFlags1
  match
    (if 1 < nthAttempt ∧ nthAttempt < (sup.DaemonNames.length : Int) + 1 then
      sup.shedSequence[(nthAttempt - 2).toNat]?
    else some sup.DaemonNames) with
  | none => none
  | some daemonNames1 =>
    let cliFlags3 :=
      if (sup.DaemonNames.length : Int) + 1 < nthAttempt then goCopy cliFlags2 sup.CLIFlags
      else cliFlags2
    let daemonNames2 :=
      if (sup.DaemonNames.length : Int) + 1 < nthAttempt then goCopy daemonNames1 sup.DaemonNames
      else daemonNames1
    some (cliFlags3 ++ addFlags ++
      ["-" ++ DaemonsFlagName, String.intercalate "," daemonNames2], daemonNames2)

/-- The failure report assembled by `Supervisor.notifyFailure`
(supervisor.go). System metrics, clock, uptime, memory, load and
concurrency counters come from external collaborators and are summarised
by the two retained output snapshots plus an opaque remainder. -/
structure FailureReport where
  failureCause : String
  cliFlags : List String
  latestStdout : String
  latestStderr : String

/-- `Supervisor.notifyFailure` from supervisor.go. Returns the report that
was handed to the mail client, or `none` when the guard made the function
log and return without sending. `sendErr` is the outcome of the mail
client's `Send`; the Go code only logs it, so it influences nothing. -/
def Supervisor.notifyFailure (sup : Supervisor) (cliFlags : List String)
    (launchErr : String) (latestStdout latestStderr : String)
    (sendErr : Option String) : Option FailureReport :=
  if !sup.MailClientConfigured || sup.NotificationRecipients.isEmpty then none
  else
    some ⟨launchErr, cliFlags, latestStdout, latestStderr⟩

/-- `FeedDecryptionPasswordToStdinAndStart` from supervisor.go: each fallible
step (obtaining the stdin pipe, starting the command, writing the password,
closing the pipe) is represented by its error outcome; the function returns
the first error encountered, in source order. -/
def FeedDecryptionPasswordToStdinAndStart
    (stdinPipeErr startErr writeErr closeErr : Option String) : Option String :=
  match stdinPipeErr with
  | some e => some e
  | none =>
    match startErr with
    | some e => some e
    | none =>
      match writeErr with
      | some e => some e
      | none => closeErr

/-- The mutable state owned by `Supervisor.Start`'s loop: `paramChoice`
(the attempt index) and `lastAttemptTime` (unix time of the most recent
successful spawn, initialised to the loop's start time). -/
structure LoopState where
  paramChoice : Int
  lastAttemptTime : Int
deriving DecidableEq

/-- Externally observable effects of one iteration of the supervision loop:
whether `notifyFailure` was invoked, and the length of the fixed sleep
taken before the next spawn attempt (`StartAttemptIntervalSec` on the
failure paths, none on the immediate-restart path). -/
structure IterEffects where
  notified : Bool
  sleepBeforeNextSpawnSec : Nat
deriving DecidableEq

/-- The environment-determined events of one iteration of the loop in
`Supervisor.Start`: the error outcomes of the four fallible steps of
`FeedDecryptionPasswordToStdinAndStart`, the wall-clock time at which the
escalation check runs after a spawn failure (`failCheckTime`), the time of
a successful spawn (`spawnTime`), the error returned by waiting on the
child (`waitErr`, `none` for a clean exit), and the time at which the
escalation check runs after a crash (`waitCheckTime`). -/
structure IterationInput where
  feedStdinPipeErr : Option String
  feedStartErr : Option String
  feedWriteErr : Option String
  feedCloseErr : Option String
  failCheckTime : Int
  spawnTime : Int
  waitErr : Option String
  waitCheckTime : Int

/-- Result of `FeedDecryptionPasswordToStdinAndStart` for one iteration. -/
def feedResult (inp : IterationInput) : Option String :=
  FeedDecryptionPasswordToStdinAndStart inp.feedStdinPipeErr inp.feedStartErr
    inp.feedWriteErr inp.feedCloseErr

/-- One iteration of the `for` loop in `Supervisor.Start` (supervisor.go):
on a spawn/secret-delivery failure, notify, escalate when the failure came
within `FailureThresholdSec` of the last successful spawn, and sleep; on a
successful spawn record its time, then on an erroring wait notify,
escalate against the spawn time, and sleep; on a clean exit simply loop
again (no notification, no escalation, no sleep). -/
def loopIteration (s : LoopState) (inp : IterationInput) : LoopState × IterEffects :=
  match feedResult inp with
  | some _ =>
    (⟨if inp.failCheckTime - s.lastAttemptTime < FailureThresholdSec then s.paramChoice + 1
      else s.paramChoice,
      s.lastAttemptTime⟩,
     ⟨true, StartAttemptIntervalSec⟩)
  | none =>
    match inp.waitErr with
    | some _ =>
      (⟨if inp.waitCheckTime - inp.spawnTime < FailureThresholdSec then s.paramChoice + 1
        else s.paramChoice,
        inp.spawnTime⟩,
       ⟨true, StartAttemptIntervalSec⟩)
    | none =>
      (⟨s.paramChoice, inp.spawnTime⟩, ⟨false, 0⟩)

/-- Iterating the supervision loop over a finite list of iteration inputs. -/
def supervisionRun (s : LoopState) : List IterationInput → LoopState
  | [] => s
  | inp :: rest => supervisionRun (loopIteration s inp).1 rest

/-- `Supervisor.Start` from supervisor.go, observed after a finite list of
iteration inputs: when the executable path cannot be determined the
function aborts immediately (`none`); otherwise it is still looping, with
the given state (`some`). -/
def StartModel (executablePathOk : Bool) (s : LoopState)
    (inps : List IterationInput) : Option LoopState :=
  if executablePathOk then some (supervisionRun s inps) else none

/-- Concrete supervisor for the claim C1 attempt table: three configured
daemons, original CLI flags carrying one advanced flag (`-gomaxprocs 8`)
besides the config flag, initialised as `Start` does. -/
def supLaunchTable : Supervisor :=
  Supervisor.initialise
    ⟨["-gomaxprocs", "8", "-config", "c.json", "-daemons", "maintenance,dnsd,autounlock"],
     [], false, ["maintenance", "dnsd", "autounlock"], []⟩

/-- Concrete supervisor for the claim C2 counterexample: the original flags
begin with a joined `-supervisor=true` flag, as when the parent itself was
launched with supervision enabled. -/
def supSupFlag : Supervisor :=
  Supervisor.initialise
    ⟨["-supervisor=true", "-config", "c.json"], [], false, ["dnsd", "autounlock"], []⟩

/-- Concrete iteration input in which the child exits cleanly: the secret
feed succeeds and waiting on the child returns no error. -/
def inpCleanExit : IterationInput := ⟨none, none, none, none, 0, 5, none, 0⟩

/-! ### Helper lemmas -/

theorem mem_of_mem_removeFromFlagsLoop (condition : String → Bool)
    (flags : List String) :
    ∀ (cn del : Bool) (t : String),
      t ∈ removeFromFlagsLoop condition flags cn del → t ∈ flags := by
  induction flags with
  | nil => intro cn del t h; exact absurd h (by simp [removeFromFlagsLoop])
  | cons str rest ih =>
    intro cn del t h
    simp only [removeFromFlagsLoop] at h
    split at h
    · split at h
      · exact List.mem_cons_of_mem _ (ih _ _ _ h)
      · rcases List.mem_cons.mp h with h2 | h2
        · exact h2 ▸ List.mem_cons_self _ _
        · exact List.mem_cons_of_mem _ (ih _ _ _ h2)
    · split at h
      · rcases List.mem_cons.mp h with h2 | h2
        · exact h2 ▸ List.mem_cons_self _ _
        · exact List.mem_cons_of_mem _ (ih _ _ _ h2)
      · exact List.mem_cons_of_mem _ (ih _ _ _ h)

theorem mem_of_mem_removeFromFlags (condition : String → Bool)
    (flags : List String) (t : String) (h : t ∈ RemoveFromFlags condition flags) :
    t ∈ flags :=
  mem_of_mem_removeFromFlagsLoop condition flags false false t h

theorem cond_false_of_mem_removeFromFlagsLoop (condition : String → Bool)
    (flags : List String) :
    ∀ (cn del : Bool) (t : String),
      t ∈ removeFromFlagsLoop condition flags cn del →
      hasPrefixGo t "-" = true → condition t = false := by
  induction flags with
  | nil => intro cn del t h; exact absurd h (by simp [removeFromFlagsLoop])
  | cons str rest ih =>
    intro cn del t h hpre
    simp only [removeFromFlagsLoop] at h
    split at h
    case isTrue hdash =>
      split at h
      case isTrue hcond => exact ih _ _ _ h hpre
      case isFalse hcond =>
        rcases List.mem_cons.mp h with h2 | h2
        · subst h2; simpa using hcond
        · exact ih _ _ _ h2 hpre
    case isFalse hdash =>
      split at h
      · rcases List.mem_cons.mp h with h2 | h2
        · subst h2; exact absurd hpre hdash
        · exact ih _ _ _ h2 hpre
      · exact ih _ _ _ h hpre

theorem cond_false_of_mem_removeFromFlags (condition : String → Bool)
    (flags : List String) (t : String) (h : t ∈ RemoveFromFlags condition flags)
    (hpre : hasPrefixGo t "-" = true) : condition t = false :=
  cond_false_of_mem_removeFromFlagsLoop condition flags false false t h hpre

theorem hasPrefixGo_of_hasPrefixGo_append (t p q : String)
    (h : hasPrefixGo t (p ++ q) = true) : hasPrefixGo t p = true := by
  unfold hasPrefixGo at h ⊢
  rw [ List.isPrefixOf_iff_prefix] at h ⊢
  rw [String.data_append] at h
  exact (List.prefix_append p.data q.data).trans h

theorem goCopy_self {α : Type} (l : List α) : goCopy l l = l := by
  simp [goCopy]

theorem goCopy_length {α : Type} (dst src : List α) :
    (goCopy dst src).length = dst.length := by
  simp [goCopy]

theorem filter_ne_length_of_nodup (c : String) (l : List String)
    (hnd : l.Nodup) (hc : c ∈ l) :
    (l.filter (fun d => !(d == c))).length + 1 = l.length := by
  have he : l.filter (fun d => !(d == c)) = l.erase c := by
    rw [List.Nodup.erase_eq_filter hnd]
    apply List.filter_congr
    intro x _
    cases h : x == c <;> simp_all
  rw [he, List.length_erase_of_mem hc]
  have : 0 < l.length := List.length_pos.mpr (List.ne_nil_of_mem hc)
  omega

theorem buildShedSequence_nil_order (rem : List String) :
    buildShedSequence [] rem = [] := rfl

theorem buildShedSequence_stop (order rem : List String) (h : rem.length = 1) :
    buildShedSequence order rem = [] := by
  cases order with
  | nil => rfl
  | cons c rest => simp [buildShedSequence, h]

theorem buildShedSequence_skip (c : String) (rest rem : List String)
    (hc : c ∉ rem) (hlen : rem.length ≠ 1) :
    buildShedSequence (c :: rest) rem = buildShedSequence rest rem := by
  have hany : rem.any (fun daemon => daemon == c) = false := by
    simp only [List.any_eq_false]
    intro x hx
    simp only [beq_iff_eq]
    rintro rfl
    exact hc hx
  simp only [buildShedSequence]
  rw [if_neg (by simpa using hlen), if_neg (by simp [hany])]

theorem buildShedSequence_shed (c : String) (rest rem : List String)
    (hc : c ∈ rem) (hlen : rem.length ≠ 1) :
    buildShedSequence (c :: rest) rem =
      rem.filter (fun d => !(d == c)) ::
        buildShedSequence rest (rem.filter (fun d => !(d == c))) := by
  have hany : rem.any (fun daemon => daemon == c) = true := by
    simp only [List.any_eq_true]
    exact ⟨c, hc, by simp⟩
  simp only [buildShedSequence]
  rw [if_neg (by simpa using hlen), if_pos hany]

theorem buildShedSequence_chain (order : List String) :
    ∀ rem : List String, rem.Nodup →
      List.Chain' (fun a b => b ⊆ a ∧ b.length + 1 = a.length)
        (rem :: buildShedSequence order rem) := by
  induction order with
  | nil => intro rem _; simp [buildShedSequence_nil_order]
  | cons c rest ih =>
    intro rem hnd
    by_cases hlen : rem.length = 1
    · simp [buildShedSequence_stop _ _ hlen]
    by_cases hc : c ∈ rem
    · rw [buildShedSequence_shed c rest rem hc hlen]
      refine List.chain'_cons.mpr ⟨⟨(List.filter_sublist _).subset, ?_⟩, ?_⟩
      · exact filter_ne_length_of_nodup c rem hnd hc
      · exact ih _ (hnd.filter (fun d => !(d == c)))
    · rw [buildShedSequence_skip c rest rem hc hlen]
      exact ih rem hnd

theorem buildShedSequence_length_le (order : List String) :
    ∀ rem : List String, rem.Nodup →
      (buildShedSequence order rem).length ≤ rem.length - 1 := by
  induction order with
  | nil => intro rem _; simp [buildShedSequence_nil_order]
  | cons c rest ih =>
    intro rem hnd
    by_cases hlen : rem.length = 1
    · simp [buildShedSequence_stop _ _ hlen]
    by_cases hc : c ∈ rem
    · rw [buildShedSequence_shed c rest rem hc hlen]
      have hflen := filter_ne_length_of_nodup c rem hnd hc
      have hrec := ih _ (hnd.filter (fun d => !(d == c)))
      simp only [List.length_cons]
      omega
    · rw [buildShedSequence_skip c rest rem hc hlen]
      exact ih rem hnd

theorem mem_buildShedSequence_of_not_shed (order : List String) :
    ∀ (rem : List String) (d : String), d ∈ rem → d ∉ order →
      ∀ e ∈ buildShedSequence order rem, d ∈ e := by
  induction order with
  | nil =>
    intro rem d _ _ e he
    rw [buildShedSequence_nil_order] at he
    cases he
  | cons c rest ih =>
    intro rem d hd hnord e he
    have hdc : d ≠ c := fun h => hnord (h ▸ List.mem_cons_self c rest)
    have hdrest : d ∉ rest := fun h => hnord (List.mem_cons_of_mem c h)
    by_cases hlen : rem.length = 1
    · rw [buildShedSequence_stop _ _ hlen] at he; cases he
    by_cases hc : c ∈ rem
    · rw [buildShedSequence_shed c rest rem hc hlen] at he
      have hdf : d ∈ rem.filter (fun x => !(x == c)) :=
        List.mem_filter.mpr ⟨hd, by simp [hdc]⟩
      rcases List.mem_cons.mp he with rfl | he2
      · exact hdf
      · exact ih _ d hdf hdrest e he2
    · rw [buildShedSequence_skip c rest rem hc hlen] at he
      exact ih rem d hd hdrest e he

theorem buildShedSequence_length_eq (order : List String) :
    ∀ rem : List String, rem.Nodup →
      (rem.filter (fun d => !(List.contains order d))).length ≤ 1 →
      (buildShedSequence order rem).length = rem.length - 1 := by
  induction order with
  | nil =>
    intro rem _ habs
    have hself : rem.filter (fun d => !(List.contains ([] : List String) d)) = rem :=
      List.filter_eq_self.mpr (fun x _ => rfl)
    rw [hself] at habs
    rw [buildShedSequence_nil_order]
    simp only [List.length_nil]
    omega
  | cons c rest ih =>
    intro rem hnd habs
    by_cases hlen : rem.length = 1
    · rw [buildShedSequence_stop _ _ hlen, hlen]
      simp
    by_cases hc : c ∈ rem
    · rw [buildShedSequence_shed c rest rem hc hlen]
      have hflen := filter_ne_length_of_nodup c rem hnd hc
      have habs2 : ((rem.filter (fun d => !(d == c))).filter
          (fun d => !(List.contains rest d))).length ≤ 1 := by
        have hcongr : (rem.filter (fun d => !(d == c))).filter
            (fun d => !(List.contains rest d)) =
            (rem.filter (fun d => !(d == c))).filter
            (fun d => !(List.contains (c :: rest) d)) := by
          apply List.filter_congr
          intro x hx
          have hxc : (x == c) = false := by
            have := (List.mem_filter.mp hx).2
            simpa using this
          have hcc : (c :: rest).contains x = rest.contains x := by
            rw [List.contains_cons, hxc]
            simp
          rw [hcc]
        rw [hcongr]
        calc ((rem.filter (fun d => !(d == c))).filter
            (fun d => !(List.contains (c :: rest) d))).length
            ≤ (rem.filter (fun d => !(List.contains (c :: rest) d))).length := by
              apply List.Sublist.length_le
              exact List.Sublist.filter _ (List.filter_sublist _)
          _ ≤ 1 := habs
      have hrec := ih _ (hnd.filter (fun d => !(d == c))) habs2
      simp only [List.length_cons]
      omega
    · rw [buildShedSequence_skip c rest rem hc hlen]
      have hcongr : rem.filter (fun d => !(List.contains (c :: rest) d)) =
          rem.filter (fun d => !(List.contains rest d)) := by
        apply List.filter_congr
        intro x hx
        have hxc : (x == c) = false := by
          simp only [beq_eq_false_iff_ne]
          rintro rfl
          exact hc hx
        have hcc : (c :: rest).contains x = rest.contains x := by
          rw [List.contains_cons, hxc]
          simp
        rw [hcc]
      rw [hcongr] at habs
      exact ih rem hnd habs

theorem intercalate_go_data_nil (s acc : String) :
    (String.intercalate.go acc s []).data = acc.data := rfl

theorem intercalate_go_data_cons (s : String) (as : List String) :
    ∀ (acc a : String), ∃ t : List Char,
      (String.intercalate.go acc s (a :: as)).data = acc.data ++ s.data ++ t := by
  induction as with
  | nil =>
    intro acc a
    exact ⟨a.data, by simp [String.intercalate.go]⟩
  | cons b bs ih =>
    intro acc a
    obtain ⟨t, ht⟩ := ih (acc ++ s ++ a) b
    refine ⟨a.data ++ s.data ++ t, ?_⟩
    rw [String.intercalate.go, ht]
    simp [String.data_append]

theorem hasPrefixGo_intercalate_dash (names : List String)
    (h : ∀ d ∈ names, hasPrefixGo d "-" = false) :
    hasPrefixGo (String.intercalate "," names) "-" = false := by
  cases names with
  | nil => rfl
  | cons d rest =>
    have hd := h d (List.mem_cons_self d rest)
    cases rest with
    | nil =>
      show hasPrefixGo (String.intercalate.go d "," []) "-" = false
      rw [hasPrefixGo, intercalate_go_data_nil]
      exact hd
    | cons b bs =>
      obtain ⟨t, ht⟩ := intercalate_go_data_cons "," bs d b
      show hasPrefixGo (String.intercalate.go d "," (b :: bs)) "-" = false
      rw [hasPrefixGo, ht]
      cases hdd : d.data with
      | nil => simp [List.isPrefixOf]
      | cons x xs =>
        rw [hasPrefixGo, hdd] at hd
        simp only [List.cons_append, List.append_assoc]
        simp only [List.isPrefixOf] at hd ⊢
        simpa using hd

theorem getLaunchParameters_of_le (sup : Supervisor) (a : Int) (names : List String)
    (h0 : 0 ≤ a) (hle : a ≤ (sup.DaemonNames.length : Int) + 1)
    (hnames : (if 1 < a ∧ a < (sup.DaemonNames.length : Int) + 1 then
        sup.shedSequence[(a - 2).toNat]? else some sup.DaemonNames) = some names) :
    sup.GetLaunchParameters a =
      some ((if 1 ≤ a then
          RemoveFromFlags (fun f => !hasPrefixGo f ("-" ++ ConfigFlagName))
            (RemoveFromFlags (fun f => hasPrefixGo f ("-" ++ SupervisorFlagName))
              sup.CLIFlags)
        else
          RemoveFromFlags (fun f => hasPrefixGo f ("-" ++ SupervisorFlagName))
            sup.CLIFlags) ++
        ["-" ++ SupervisorFlagName ++ "=false"] ++
        ["-" ++ DaemonsFlagName, String.intercalate "," names], names) := by
  simp only [Supervisor.GetLaunchParameters]
  rw [hnames]
  have hnr : ¬((sup.DaemonNames.length : Int) + 1 < a) := by omega
  simp only [h0, hnr, if_true, if_false]

theorem flags_supervisor_only (sup : Supervisor) (a : Int) (names : List String)
    (hnames : ∀ d ∈ names, hasPrefixGo d "-" = false) :
    ∀ t ∈ (if 1 ≤ a then
        RemoveFromFlags (fun f => !hasPrefixGo f ("-" ++ ConfigFlagName))
          (RemoveFromFlags (fun f => hasPrefixGo f ("-" ++ SupervisorFlagName))
            sup.CLIFlags)
      else
        RemoveFromFlags (fun f => hasPrefixGo f ("-" ++ SupervisorFlagName))
          sup.CLIFlags) ++
      ["-" ++ SupervisorFlagName ++ "=false"] ++
      ["-" ++ DaemonsFlagName, String.intercalate "," names],
      hasPrefixGo t ("-" ++ SupervisorFlagName) = true →
      t = "-" ++ SupervisorFlagName ++ "=false" := by
  intro t ht hpre
  rcases List.mem_append.mp ht with ht1 | ht2
  · rcases List.mem_append.mp ht1 with htF | hts
    · exfalso
      have htc : t ∈ RemoveFromFlags
          (fun f => hasPrefixGo f ("-" ++ SupervisorFlagName)) sup.CLIFlags := by
        by_cases h1 : 1 ≤ a
        · rw [if_pos h1] at htF
          exact mem_of_mem_removeFromFlags _ _ _ htF
        · rw [if_neg h1] at htF
          exact htF
      have hdash : hasPrefixGo t "-" = true :=
        hasPrefixGo_of_hasPrefixGo_append t "-" SupervisorFlagName hpre
      have hfalse := cond_false_of_mem_removeFromFlags _ _ _ htc hdash
      rw [hpre] at hfalse
      cases hfalse
    · exact List.mem_singleton.mp hts
  · rcases List.mem_cons.mp ht2 with hteq | htj
    · exfalso
      rw [hteq] at hpre
      have : hasPrefixGo ("-" ++ DaemonsFlagName) ("-" ++ SupervisorFlagName) = false := by
        decide
      rw [hpre] at this
      cases this
    · exfalso
      have hteq := List.mem_singleton.mp htj
      rw [hteq] at hpre
      have hjd : hasPrefixGo (String.intercalate "," names) "-" = false :=
        hasPrefixGo_intercalate_dash names hnames
      have hdash : hasPrefixGo (String.intercalate "," names) "-" = true :=
        hasPrefixGo_of_hasPrefixGo_append _ "-" SupervisorFlagName hpre
      rw [hjd] at hdash
      cases hdash

theorem paramChoice_le_loopIteration (s : LoopState) (inp : IterationInput) :
    s.paramChoice ≤ (loopIteration s inp).1.paramChoice := by
  unfold loopIteration
  cases feedResult inp with
  | some e =>
    dsimp only
    split <;> omega
  | none =>
    cases inp.waitErr with
    | some e =>
      dsimp only
      split <;> omega
    | none => dsimp only; omega

theorem supervisionRun_cons (s : LoopState) (inp : IterationInput)
    (rest : List IterationInput) :
    supervisionRun s (inp :: rest) = supervisionRun (loopIteration s inp).1 rest := rfl

theorem paramChoice_mono_supervisionRun (inps : List IterationInput) :
    ∀ s : LoopState, s.paramChoice ≤ (supervisionRun s inps).paramChoice := by
  induction inps with
  | nil => intro s; exact le_refl _
  | cons inp rest ih =>
    intro s
    rw [supervisionRun_cons]
    exact le_trans (paramChoice_le_loopIteration s inp) (ih (loopIteration s inp).1)

/-! ### Claim theorems -/

/-- Claim C3 (confirmed): `RemoveFromFlags` removes every flag token
satisfying the predicate, together with its following value token exactly
when the flag is in separated form and with no extra token consumed for
joined form; witnessed by the two concrete runs of the spec, plus the
general guarantee that no flag token satisfying the predicate survives. -/
theorem c3_removeFromFlags_behaviour :
    RemoveFromFlags (fun s => s == "-daemons")
      ["-config", "cfg.json", "-daemons", "dnsd,httpd", "-gomaxprocs", "8"] =
      ["-config", "cfg.json", "-gomaxprocs", "8"] ∧
    RemoveFromFlags (fun s => hasPrefixGo s "-supervisor")
      ["-supervisor=true", "-config", "cfg.json"] = ["-config", "cfg.json"] ∧
    ∀ (condition : String → Bool) (flags : List String) (t : String),
      t ∈ RemoveFromFlags condition flags → hasPrefixGo t "-" = true →
      condition t = false :=
  ⟨by decide, by decide, cond_false_of_mem_removeFromFlags⟩

/-- Witness for claim C3: the general part applied at a concrete input. -/
theorem c3_removeFromFlags_behaviour_witness :
    "-config" ∈ RemoveFromFlags (fun s => s == "-daemons") ["-config", "cfg.json"] ∧
    hasPrefixGo "-config" "-" = true ∧
    (fun s => s == "-daemons") "-config" = false :=
  ⟨by decide, by decide,
   c3_removeFromFlags_behaviour.2.2 (fun s => s == "-daemons") ["-config", "cfg.json"]
     "-config" (by decide) (by decide)⟩

/-- Claim C4 (confirmed): the shed-ladder construction stops entirely once
the remaining set has one member, skips absent candidates with no effect,
removes a present candidate producing a strictly smaller remaining set
appended to the ladder, and on the spec's example computes exactly
`[[dnsd, autounlock], [autounlock]]`. -/
theorem c4_shed_ladder_construction :
    buildShedSequence [MaintenanceName, DNSDName, SOCKDName]
      [MaintenanceName, DNSDName, AutoUnlockName] =
      [[DNSDName, AutoUnlockName], [AutoUnlockName]] ∧
    (∀ (order rem : List String), rem.length = 1 → buildShedSequence order rem = []) ∧
    (∀ (c : String) (rest rem : List String), c ∉ rem → rem.length ≠ 1 →
      buildShedSequence (c :: rest) rem = buildShedSequence rest rem) ∧
    (∀ (c : String) (rest rem : List String), c ∈ rem → rem.length ≠ 1 →
      buildShedSequence (c :: rest) rem =
        rem.filter (fun d => !(d == c)) ::
          buildShedSequence rest (rem.filter (fun d => !(d == c))) ∧
      (rem.Nodup → (rem.filter (fun d => !(d == c))).length + 1 = rem.length)) :=
  ⟨by decide,
   buildShedSequence_stop,
   buildShedSequence_skip,
   fun c rest rem hc hlen =>
     ⟨buildShedSequence_shed c rest rem hc hlen,
      fun hnd => filter_ne_length_of_nodup c rem hnd hc⟩⟩

/-- Witness for claim C4: the skip and shed rules applied concretely. -/
theorem c4_shed_ladder_construction_witness :
    ("sockd" ∉ ["dnsd", "autounlock"] ∧ ["dnsd", "autounlock"].length ≠ 1 ∧
      buildShedSequence ["sockd"] ["dnsd", "autounlock"] =
        buildShedSequence [] ["dnsd", "autounlock"]) ∧
    ("dnsd" ∈ ["dnsd", "autounlock"] ∧
      buildShedSequence ["dnsd"] ["dnsd", "autounlock"] =
        ["dnsd", "autounlock"].filter (fun d => !(d == "dnsd")) ::
          buildShedSequence [] (["dnsd", "autounlock"].filter (fun d => !(d == "dnsd")))) :=
  ⟨⟨by decide, by decide,
    c4_shed_ladder_construction.2.2.1 "sockd" [] ["dnsd", "autounlock"]
      (by decide) (by decide)⟩,
   ⟨by decide,
    (c4_shed_ladder_construction.2.2.2 "dnsd" [] ["dnsd", "autounlock"]
      (by decide) (by decide)).1⟩⟩

/-- Claim C5 (confirmed): for every initial service set without duplicate
names and every priority order, consecutive ladder entries shrink by
exactly one member while staying subsets, the ladder length is at most the
initial count minus one, any service absent from the priority order stays
in every entry, and in particular the last-resort service (absent from the
real `ShedOrder`) stays in every entry of the real ladder. -/
theorem c5_shed_ladder_invariants (order ds : List String) (hnd : ds.Nodup) :
    List.Chain' (fun a b => b ⊆ a ∧ b.length + 1 = a.length)
      (ds :: buildShedSequence order ds) ∧
    (buildShedSequence order ds).length ≤ ds.length - 1 ∧
    (∀ d, d ∈ ds → d ∉ order → ∀ e ∈ buildShedSequence order ds, d ∈ e) ∧
    (AutoUnlockName ∈ ds → ∀ e ∈ buildShedSequence ShedOrder ds, AutoUnlockName ∈ e) :=
  ⟨buildShedSequence_chain order ds hnd,
   buildShedSequence_length_le order ds hnd,
   fun d hd hnord => mem_buildShedSequence_of_not_shed order ds d hd hnord,
   fun h => mem_buildShedSequence_of_not_shed ShedOrder ds AutoUnlockName h (by decide)⟩

/-- Witness for claim C5: the invariants at the spec's concrete example. -/
theorem c5_shed_ladder_invariants_witness :
    (["maintenance", "dnsd", "autounlock"] : List String).Nodup ∧
    (List.Chain' (fun a b => b ⊆ a ∧ b.length + 1 = a.length)
      (["maintenance", "dnsd", "autounlock"] ::
        buildShedSequence ["maintenance", "dnsd", "sockd"]
          ["maintenance", "dnsd", "autounlock"]) ∧
    (buildShedSequence ["maintenance", "dnsd", "sockd"]
      ["maintenance", "dnsd", "autounlock"]).length ≤
      (["maintenance", "dnsd", "autounlock"] : List String).length - 1 ∧
    (∀ d, d ∈ (["maintenance", "dnsd", "autounlock"] : List String) →
      d ∉ (["maintenance", "dnsd", "sockd"] : List String) →
      ∀ e ∈ buildShedSequence ["maintenance", "dnsd", "sockd"]
        ["maintenance", "dnsd", "autounlock"], d ∈ e) ∧
    (AutoUnlockName ∈ (["maintenance", "dnsd", "autounlock"] : List String) →
      ∀ e ∈ buildShedSequence ShedOrder ["maintenance", "dnsd", "autounlock"],
        AutoUnlockName ∈ e)) :=
  ⟨by decide,
   c5_shed_ladder_invariants ["maintenance", "dnsd", "sockd"]
     ["maintenance", "dnsd", "autounlock"] (by decide)⟩

/-- Claim C1 (code bug): for a supervisor with three configured daemons the
attempt table holds for attempts 0 through 4, but for attempts at least 5
the restore step `copy(cliFlags, sup.CLIFlags)` writes into the shorter
config-only slice, so only a truncated prefix of the original flags comes
back: here the `-config c.json` pair is lost entirely, contradicting the
claimed full restoration of the original flag list. -/
theorem c1_launch_parameter_table :
    supLaunchTable.CLIFlags = ["-gomaxprocs", "8", "-config", "c.json"] ∧
    supLaunchTable.GetLaunchParameters 0 =
      some (["-gomaxprocs", "8", "-config", "c.json", "-supervisor=false",
        "-daemons", "maintenance,dnsd,autounlock"],
        ["maintenance", "dnsd", "autounlock"]) ∧
    supLaunchTable.GetLaunchParameters 1 =
      some (["-config", "c.json", "-supervisor=false",
        "-daemons", "maintenance,dnsd,autounlock"],
        ["maintenance", "dnsd", "autounlock"]) ∧
    supLaunchTable.GetLaunchParameters 2 =
      some (["-config", "c.json", "-supervisor=false", "-daemons", "dnsd,autounlock"],
        ["dnsd", "autounlock"]) ∧
    supLaunchTable.GetLaunchParameters 3 =
      some (["-config", "c.json", "-supervisor=false", "-daemons", "autounlock"],
        ["autounlock"]) ∧
    supLaunchTable.GetLaunchParameters 4 =
      some (["-config", "c.json", "-supervisor=false",
        "-daemons", "maintenance,dnsd,autounlock"],
        ["maintenance", "dnsd", "autounlock"]) ∧
    supLaunchTable.GetLaunchParameters 5 =
      some (["-gomaxprocs", "8", "-supervisor=false",
        "-daemons", "maintenance,dnsd,autounlock"],
        ["maintenance", "dnsd", "autounlock"]) ∧
    supLaunchTable.GetLaunchParameters 6 =
      some (["-gomaxprocs", "8", "-supervisor=false",
        "-daemons", "maintenance,dnsd,autounlock"],
        ["maintenance", "dnsd", "autounlock"]) ∧
    supLaunchTable.GetLaunchParameters 5 ≠
      some (supLaunchTable.CLIFlags ++ ["-supervisor=false",
        "-daemons", "maintenance,dnsd,autounlock"],
        ["maintenance", "dnsd", "autounlock"]) := by
  decide

/-- Counterexample for claim C2: with the parent's own `-supervisor=true`
flag at the head of the original flags and two configured daemons, attempt
4 (past the shed ladder) restores a truncated prefix of the original flags
that reintroduces the token `-supervisor=true`, so the returned flag list
contains a token beginning with `-supervisor` other than the final
`-supervisor=false`. -/
theorem c2_counterexample :
    supSupFlag.GetLaunchParameters 4 =
      some (["-supervisor=true", "-config", "-supervisor=false",
        "-daemons", "dnsd,autounlock"], ["dnsd", "autounlock"]) ∧
    "-supervisor=true" ∈ ["-supervisor=true", "-config", "-supervisor=false",
      "-daemons", "dnsd,autounlock"] ∧
    hasPrefixGo "-supervisor=true" ("-" ++ SupervisorFlagName) = true ∧
    "-supervisor=true" ≠ "-" ++ SupervisorFlagName ++ "=false" := by
  decide

/-- Claim C2 (amended): for every attempt `0 ≤ a ≤ D + 1` (before the buggy
restore step can fire), provided daemon names are not flag-like, the
returned flag list ends with the appended `-supervisor=false` followed by
the `-daemons` pair, and contains no other token beginning with
`-supervisor`; for attempts beyond `D + 1` the truncated restore can
reintroduce a prior `-supervisor` token (see the counterexample). -/
theorem c2_supervisor_flag_forced (sup : Supervisor) (a : Int)
    (flags names : List String)
    (h0 : 0 ≤ a) (hle : a ≤ (sup.DaemonNames.length : Int) + 1)
    (hdn : ∀ d ∈ sup.DaemonNames, hasPrefixGo d "-" = false)
    (hsh : ∀ e ∈ sup.shedSequence, ∀ d ∈ e, hasPrefixGo d "-" = false)
    (hget : sup.GetLaunchParameters a = some (flags, names)) :
    (∃ front, flags = front ++ ["-" ++ SupervisorFlagName ++ "=false",
      "-" ++ DaemonsFlagName, String.intercalate "," names]) ∧
    ∀ t ∈ flags, hasPrefixGo t ("-" ++ SupervisorFlagName) = true →
      t = "-" ++ SupervisorFlagName ++ "=false" := by
  have main : ∀ entry : List String,
      (if 1 < a ∧ a < (sup.DaemonNames.length : Int) + 1 then
        sup.shedSequence[(a - 2).toNat]? else some sup.DaemonNames) = some entry →
      (∀ d ∈ entry, hasPrefixGo d "-" = false) →
      (∃ front, flags = front ++ ["-" ++ SupervisorFlagName ++ "=false",
        "-" ++ DaemonsFlagName, String.intercalate "," names]) ∧
      ∀ t ∈ flags, hasPrefixGo t ("-" ++ SupervisorFlagName) = true →
        t = "-" ++ SupervisorFlagName ++ "=false" := by
    intro entry hentry hentrydash
    have hform := getLaunchParameters_of_le sup a entry h0 hle hentry
    rw [hform] at hget
    simp only [Option.some.injEq, Prod.mk.injEq] at hget
    obtain ⟨hfl, hnm⟩ := hget
    subst hnm
    constructor
    · refine ⟨(if 1 ≤ a then
        RemoveFromFlags (fun f => !hasPrefixGo f ("-" ++ ConfigFlagName))
          (RemoveFromFlags (fun f => hasPrefixGo f ("-" ++ SupervisorFlagName))
            sup.CLIFlags)
      else
        RemoveFromFlags (fun f => hasPrefixGo f ("-" ++ SupervisorFlagName))
          sup.CLIFlags), ?_⟩
      rw [← hfl]
      simp
    · intro t ht hpre
      rw [← hfl] at ht
      exact flags_supervisor_only sup a entry hentrydash t ht hpre
  by_cases hshed : 1 < a ∧ a < (sup.DaemonNames.length : Int) + 1
  · cases hq : sup.shedSequence[(a - 2).toNat]? with
    | none =>
      exfalso
      have hnone : sup.GetLaunchParameters a = none := by
        simp only [Supervisor.GetLaunchParameters]
        rw [if_pos hshed, hq]
      rw [hnone] at hget
      cases hget
    | some entry =>
      have hmem : entry ∈ sup.shedSequence := List.getElem?_mem hq
      exact main entry (by rw [if_pos hshed, hq]) (hsh entry hmem)
  · exact main sup.DaemonNames (by rw [if_neg hshed]) hdn

/-- Witness for claim C2's amended theorem: the two-daemon supervisor at
attempt 1, where the supervisor flag is forced off and unique. -/
theorem c2_supervisor_flag_forced_witness :
    supSupFlag.GetLaunchParameters 1 =
      some (["-config", "c.json", "-supervisor=false", "-daemons", "dnsd,autounlock"],
        ["dnsd", "autounlock"]) ∧
    ((∃ front, ["-config", "c.json", "-supervisor=false", "-daemons", "dnsd,autounlock"] =
      front ++ ["-" ++ SupervisorFlagName ++ "=false",
        "-" ++ DaemonsFlagName, String.intercalate "," ["dnsd", "autounlock"]]) ∧
    ∀ t ∈ ["-config", "c.json", "-supervisor=false", "-daemons", "dnsd,autounlock"],
      hasPrefixGo t ("-" ++ SupervisorFlagName) = true →
      t = "-" ++ SupervisorFlagName ++ "=false") :=
  ⟨by decide,
   c2_supervisor_flag_forced supSupFlag 1
     ["-config", "c.json", "-supervisor=false", "-daemons", "dnsd,autounlock"]
     ["dnsd", "autounlock"] (by decide) (by decide) (by decide) (by decide) (by decide)⟩

/-- Claim C10 (confirmed): when the configured daemon names are distinct
and at most one of them is absent from `ShedOrder`, the ladder built by
`initialise` has exactly `D - 1` entries, and `GetLaunchParameters` never
indexes the ladder out of range: it is total (`isSome`) at every attempt. -/
theorem c10_shed_index_in_bounds (sup : Supervisor)
    (hseq : sup.shedSequence = buildShedSequence ShedOrder sup.DaemonNames)
    (hnd : sup.DaemonNames.Nodup)
    (habs : (sup.DaemonNames.filter (fun d => !(List.contains ShedOrder d))).length ≤ 1) :
    sup.shedSequence.length = sup.DaemonNames.length - 1 ∧
    ∀ a : Int, (sup.GetLaunchParameters a).isSome = true := by
  have hlen : sup.shedSequence.length = sup.DaemonNames.length - 1 := by
    rw [hseq]
    exact buildShedSequence_length_eq ShedOrder sup.DaemonNames hnd habs
  refine ⟨hlen, fun a => ?_⟩
  simp only [Supervisor.GetLaunchParameters]
  by_cases hshed : 1 < a ∧ a < (sup.DaemonNames.length : Int) + 1
  · rw [if_pos hshed]
    have hidx : (a - 2).toNat < sup.shedSequence.length := by
      rw [hlen]
      omega
    rw [List.getElem?_eq_getElem hidx]
    simp
  · rw [if_neg hshed]
    simp

/-- Witness for claim C10: the bound applied to the initialised three-daemon
supervisor, evaluated at the deepest shedding attempt. -/
theorem c10_shed_index_in_bounds_witness :
    supLaunchTable.shedSequence =
      buildShedSequence ShedOrder supLaunchTable.DaemonNames ∧
    supLaunchTable.DaemonNames.Nodup ∧
    (supLaunchTable.DaemonNames.filter
      (fun d => !(List.contains ShedOrder d))).length ≤ 1 ∧
    supLaunchTable.shedSequence.length = supLaunchTable.DaemonNames.length - 1 ∧
    (supLaunchTable.GetLaunchParameters 3).isSome = true :=
  ⟨by decide, by decide, by decide,
   (c10_shed_index_in_bounds supLaunchTable (by decide) (by decide) (by decide)).1,
   (c10_shed_index_in_bounds supLaunchTable (by decide) (by decide) (by decide)).2 3⟩

/-- Claim C9 (confirmed): `GetLaunchParameters` is a pure function of the
attempt index and the static launch configuration (original flags, daemon
names, shed ladder): two supervisors agreeing on those fields give
element-wise identical results at every attempt, whatever their mail and
notification state, and repeating a call changes nothing. -/
theorem c9_resolver_pure (sup sup2 : Supervisor) (a : Int)
    (hf : sup.CLIFlags = sup2.CLIFlags) (hd : sup.DaemonNames = sup2.DaemonNames)
    (hs : sup.shedSequence = sup2.shedSequence) :
    sup.GetLaunchParameters a = sup2.GetLaunchParameters a ∧
    sup.GetLaunchParameters a = sup.GetLaunchParameters a := by
  refine ⟨?_, rfl⟩
  simp only [Supervisor.GetLaunchParameters, hf, hd, hs]

/-- Witness for claim C9: two supervisors differing only in notification
state resolve attempt 2 identically. -/
theorem c9_resolver_pure_witness :
    (⟨["-config", "c.json"], [], false, ["dnsd", "autounlock"],
      [["autounlock"]]⟩ : Supervisor).GetLaunchParameters 2 =
    (⟨["-config", "c.json"], ["admin@example.com"], true, ["dnsd", "autounlock"],
      [["autounlock"]]⟩ : Supervisor).GetLaunchParameters 2 :=
  (c9_resolver_pure
    ⟨["-config", "c.json"], [], false, ["dnsd", "autounlock"], [["autounlock"]]⟩
    ⟨["-config", "c.json"], ["admin@example.com"], true, ["dnsd", "autounlock"],
      [["autounlock"]]⟩ 2 rfl rfl rfl).1

/-- Claim C6 (confirmed): in the supervision loop's failure steps (failed
spawn or crashed child), the attempt index grows by exactly 1 when the
failure check happens strictly less than the 20-minute tolerance window
after the last recorded successful spawn time, stays unchanged at or after
the window, and a fixed `StartAttemptIntervalSec` sleep precedes the next
spawn; across any whole run the attempt index never decreases. -/
theorem c6_escalation_behaviour :
    (∀ (s : LoopState) (inp : IterationInput), (feedResult inp).isSome = true →
      (inp.failCheckTime - s.lastAttemptTime < FailureThresholdSec →
        (loopIteration s inp).1.paramChoice = s.paramChoice + 1) ∧
      (FailureThresholdSec ≤ inp.failCheckTime - s.lastAttemptTime →
        (loopIteration s inp).1.paramChoice = s.paramChoice) ∧
      (loopIteration s inp).2.sleepBeforeNextSpawnSec = StartAttemptIntervalSec) ∧
    (∀ (s : LoopState) (inp : IterationInput), feedResult inp = none →
      inp.waitErr.isSome = true →
      (inp.waitCheckTime - inp.spawnTime < FailureThresholdSec →
        (loopIteration s inp).1.paramChoice = s.paramChoice + 1) ∧
      (FailureThresholdSec ≤ inp.waitCheckTime - inp.spawnTime →
        (loopIteration s inp).1.paramChoice = s.paramChoice) ∧
      (loopIteration s inp).2.sleepBeforeNextSpawnSec = StartAttemptIntervalSec) ∧
    (∀ (s : LoopState) (inps : List IterationInput),
      s.paramChoice ≤ (supervisionRun s inps).paramChoice) := by
  refine ⟨?_, ?_, fun s inps => paramChoice_mono_supervisionRun inps s⟩
  · intro s inp hf
    unfold loopIteration
    cases hfe : feedResult inp with
    | none => rw [hfe] at hf; cases hf
    | some e =>
      dsimp only
      refine ⟨fun h => ?_, fun h => ?_, rfl⟩
      · rw [if_pos h]
      · rw [if_neg (by omega)]
  · intro s inp hf hw
    unfold loopIteration
    rw [hf]
    cases hwe : inp.waitErr with
    | none => rw [hwe] at hw; cases hw
    | some e =>
      dsimp only
      refine ⟨fun h => ?_, fun h => ?_, rfl⟩
      · rw [if_pos h]
      · rw [if_neg (by omega)]

/-- Witness for claim C6: a failed spawn 5 seconds after the last success
escalates from attempt 0 to attempt 1 and sleeps the fixed interval. -/
theorem c6_escalation_behaviour_witness :
    (feedResult ⟨some "pipe error", none, none, none, 5, 0, none, 0⟩).isSome = true ∧
    ((5 : Int) - 0 < FailureThresholdSec ∧
      (loopIteration ⟨0, 0⟩
        ⟨some "pipe error", none, none, none, 5, 0, none, 0⟩).1.paramChoice = 0 + 1) ∧
    (loopIteration ⟨0, 0⟩
      ⟨some "pipe error", none, none, none, 5, 0, none, 0⟩).2.sleepBeforeNextSpawnSec =
      StartAttemptIntervalSec :=
  ⟨by decide,
   ⟨by decide,
    (c6_escalation_behaviour.1 ⟨0, 0⟩
      ⟨some "pipe error", none, none, none, 5, 0, none, 0⟩ (by decide)).1 (by decide)⟩,
   (c6_escalation_behaviour.1 ⟨0, 0⟩
     ⟨some "pipe error", none, none, none, 5, 0, none, 0⟩ (by decide)).2.2⟩

/-- Claim C7 (confirmed): `notifyFailure` hands a report to the mail client
exactly when the client is configured and the recipient list is non-empty;
the report embeds the failure cause and the exact CLI flags of the failed
attempt; and the outcome of the mail send has no effect on the result, so
a send failure cannot abort or block the loop. -/
theorem c7_notify_failure (sup : Supervisor) (cliFlags : List String)
    (launchErr latestStdout latestStderr : String) (sendErr : Option String) :
    ((sup.notifyFailure cliFlags launchErr latestStdout latestStderr sendErr).isSome =
        true ↔
      sup.MailClientConfigured = true ∧ sup.NotificationRecipients ≠ []) ∧
    (∀ rep, sup.notifyFailure cliFlags launchErr latestStdout latestStderr sendErr =
        some rep →
      rep.failureCause = launchErr ∧ rep.cliFlags = cliFlags) ∧
    (∀ sendErr2 : Option String,
      sup.notifyFailure cliFlags launchErr latestStdout latestStderr sendErr =
      sup.notifyFailure cliFlags launchErr latestStdout latestStderr sendErr2) := by
  refine ⟨?_, ?_, fun _ => rfl⟩
  · unfold Supervisor.notifyFailure
    split
    case isTrue h =>
      simp only [Option.isSome_none, Bool.false_eq_true, false_iff, not_and]
      intro hconf
      rcases Bool.or_eq_true_iff.mp h with h1 | h2
      · rw [hconf] at h1; cases h1
      · exact fun hne => hne (List.isEmpty_iff.mp h2)
    case isFalse h =>
      simp only [Option.isSome_some, true_iff]
      rw [Bool.or_eq_true_iff] at h
      push_neg at h
      obtain ⟨h1, h2⟩ := h
      constructor
      · cases hb : sup.MailClientConfigured
        · exfalso; apply h1; rw [hb]; rfl
        · rfl
      · intro hnil
        apply h2
        rw [hnil]
        rfl
  · intro rep hrep
    unfold Supervisor.notifyFailure at hrep
    split at hrep
    · cases hrep
    · simp only [Option.some.injEq] at hrep
      rw [← hrep]
      exact ⟨rfl, rfl⟩

/-- Witness for claim C7: a configured client with one recipient sends a
report embedding the cause and flags; an unconfigured client sends none. -/
theorem c7_notify_failure_witness :
    (((⟨[], ["ops@example.com"], true, [], []⟩ : Supervisor).notifyFailure
        ["-config", "c.json"] "exit status 2" "out" "err" none).isSome = true ↔
      true = true ∧ (["ops@example.com"] : List String) ≠ []) ∧
    (∀ rep, (⟨[], ["ops@example.com"], true, [], []⟩ : Supervisor).notifyFailure
        ["-config", "c.json"] "exit status 2" "out" "err" none = some rep →
      rep.failureCause = "exit status 2" ∧ rep.cliFlags = ["-config", "c.json"]) :=
  ⟨(c7_notify_failure ⟨[], ["ops@example.com"], true, [], []⟩
      ["-config", "c.json"] "exit status 2" "out" "err" none).1,
   (c7_notify_failure ⟨[], ["ops@example.com"], true, [], []⟩
      ["-config", "c.json"] "exit status 2" "out" "err" none).2.1⟩

/-- Counterexample for claim C8: a clean child exit does not take the
notify-escalate-sleep failure path: the iteration neither notifies nor
sleeps, contradicting the claim that every child termination including a
clean exit takes the identical recoverable path. -/
theorem c8_counterexample :
    (loopIteration ⟨0, 0⟩ inpCleanExit).2.notified = false ∧
    (loopIteration ⟨0, 0⟩ inpCleanExit).2.sleepBeforeNextSpawnSec = 0 ∧
    (loopIteration ⟨0, 0⟩ inpCleanExit).2 ≠
      (⟨true, StartAttemptIntervalSec⟩ : IterEffects) := by
  decide

/-- Claim C8 (amended): `Start` returns only when the executable path
cannot be determined at startup; spawn and secret-delivery failures and
erroring child terminations all take the identical notify, conditionally
escalate, sleep, retry path; a clean child exit is restarted immediately
with no notification, no escalation and no sleep; in every case the loop
itself continues. -/
theorem c8_terminal_behaviour (executablePathOk : Bool) (s : LoopState)
    (inps : List IterationInput) :
    (StartModel executablePathOk s inps = none ↔ executablePathOk = false) ∧
    (∀ (s2 : LoopState) (inp : IterationInput),
      (feedResult inp).isSome = true ∨
        (feedResult inp = none ∧ inp.waitErr.isSome = true) →
      (loopIteration s2 inp).2.notified = true ∧
      (loopIteration s2 inp).2.sleepBeforeNextSpawnSec = StartAttemptIntervalSec) ∧
    (∀ (s2 : LoopState) (inp : IterationInput), feedResult inp = none →
      inp.waitErr = none →
      (loopIteration s2 inp).2.notified = false ∧
      (loopIteration s2 inp).2.sleepBeforeNextSpawnSec = 0 ∧
      (loopIteration s2 inp).1.paramChoice = s2.paramChoice ∧
      (loopIteration s2 inp).1.lastAttemptTime = inp.spawnTime) := by
  refine ⟨?_, ?_, ?_⟩
  · unfold StartModel
    cases executablePathOk <;> simp
  · intro s2 inp h
    unfold loopIteration
    rcases h with h | ⟨hf, hw⟩
    · cases hfe : feedResult inp with
      | none => rw [hfe] at h; cases h
      | some e => exact ⟨rfl, rfl⟩
    · rw [hf]
      cases hwe : inp.waitErr with
      | none => rw [hwe] at hw; cases hw
      | some e => exact ⟨rfl, rfl⟩
  · intro s2 inp hf hw
    unfold loopIteration
    rw [hf, hw]
    exact ⟨rfl, rfl, rfl, rfl⟩

/-- Witness for claim C8's amended theorem: with the executable path
resolved the model keeps running after a clean exit, and an erroring wait
notifies and sleeps. -/
theorem c8_terminal_behaviour_witness :
    (StartModel true ⟨0, 0⟩ [inpCleanExit] = none ↔ true = false) ∧
    ((feedResult ⟨none, none, none, none, 0, 3, some "crash", 9⟩).isSome = true ∨
      (feedResult ⟨none, none, none, none, 0, 3, some "crash", 9⟩ = none ∧
        (⟨none, none, none, none, 0, 3, some "crash", 9⟩ :
          IterationInput).waitErr.isSome = true)) ∧
    (loopIteration ⟨0, 0⟩
      ⟨none, none, none, none, 0, 3, some "crash", 9⟩).2.notified = true :=
  ⟨(c8_terminal_behaviour true ⟨0, 0⟩ [inpCleanExit]).1,
   Or.inr ⟨by decide, by decide⟩,
   ((c8_terminal_behaviour true ⟨0, 0⟩ [inpCleanExit]).2.1 ⟨0, 0⟩
     ⟨none, none, none, none, 0, 3, some "crash", 9⟩
     (Or.inr ⟨by decide, by decide⟩)).1⟩

end Laitos
